import Mathlib

/-!
Verification of the SZ OpenCL 3-D float compressor
(sz/src/sz_opencl.cc, function sz_compress_float3d_opencl).

The development shallowly embeds the components of the compression
pipeline over exact rational arithmetic: the error-bounded interval
quantizer shared by the sample and coefficient paths, the per-block
staging-buffer copies with their boundary pointer-stall logic, the
regression fitter, the predictor selector, the coefficient quantizer,
the serializer byte layout with its declared length fields, and the
entry prologue with size_t wraparound.  Machine floats are modelled as
rationals; size_t arithmetic is modelled as naturals reduced mod 2^64
where overflow matters.  External collaborators (Huffman coder, the
one-dimensional integer compressor, the bit packer) enter only through
their output byte counts, which are kept as universally quantified
parameters.
-/

attribute [local semireducible] Rat.add Rat.mul Rat.inv Rat.sub

set_option maxRecDepth 100000

namespace SZO

/-- Embedding of C fabs on exact rationals. -/
def fabs (q : ℚ) : ℚ := if q < 0 then -q else q

/-- Embedding of the C cast (int)(x) of a double: truncation toward zero. -/
def cTrunc (q : ℚ) : ℤ := if 0 ≤ q then ⌊q⌋ else -⌊-q⌋

/-- Embedding of C std::min(a, b) = (b < a) ? b : a. -/
def minQ (a b : ℚ) : ℚ := if b < a then b else a

/-- Embedding of the error-bounded interval quantizer step that the source
repeats for samples (both predictors) and for regression coefficients:
diff = cur - pred; itvNum = fabs(diff)/prec + 1; on capacity overflow or on
failure of the post-quantization guard, escape with symbol 0 storing the raw
value; otherwise emit the center-biased symbol and the reconstruction. -/
def quantizeStep (prec : ℚ) (cap radius : ℤ) (pred cur : ℚ) : ℤ × ℚ :=
  let diff := cur - pred
  let itvNum := fabs diff / prec + 1
  if itvNum < (cap : ℚ) then
    let itvNum2 := if diff < 0 then -itvNum else itvNum
    let sym := cTrunc (itvNum2 / 2) + radius
    let recon := pred + 2 * ((sym : ℚ) - (radius : ℚ)) * prec
    if prec < fabs (cur - recon) then (0, cur) else (sym, recon)
  else (0, cur)

/-- State of the per-block sample quantizer: the halo staging buffer
(flat index, stride 49/7/1), plus observer lists recording, in traversal
order, the emitted symbols, the original staged values, the reconstructed
values, and the raw escaped values. -/
structure SQState where
  buf : ℕ → ℚ
  types : List ℤ
  origs : List ℚ
  recons : List ℚ
  unpred : List ℚ

/-- Pointwise write into the staging buffer. -/
def updateNat (f : ℕ → ℚ) (i : ℕ) (v : ℚ) : ℕ → ℚ := fun j => if j = i then v else f j

/-- Flat halo-buffer index of block-local cell (ii, jj, kk); the buffer has
edge length block_size + 1 = 7 and the block content lives at offset
(1,1,1), exactly as the source positions pred_buffer_pos. -/
def cellIdx (c : ℕ × ℕ × ℕ) : ℕ := (c.1 + 1) * 49 + (c.2.1 + 1) * 7 + (c.2.2 + 1)

/-- Block-local cells in the traversal order of the source loops
(ii outermost, kk innermost). -/
def blockCells : List (ℕ × ℕ × ℕ) :=
  (List.range 6).flatMap fun ii => (List.range 6).flatMap fun jj =>
    (List.range 6).map fun kk => (ii, jj, kk)

/-- Embedding of the 7-neighbor inclusion-exclusion Lorenzo prediction read
from the halo buffer: offsets -1, -strip_dim1, -strip_dim0, -strip_dim1-1,
-strip_dim0-1, -strip_dim0-strip_dim1, -strip_dim0-strip_dim1-1 with
strip_dim0 = 49, strip_dim1 = 7. -/
def lorenzoPred (buf : ℕ → ℚ) (idx : ℕ) : ℚ :=
  buf (idx - 1) + buf (idx - 7) + buf (idx - 49) - buf (idx - 8) -
    buf (idx - 50) - buf (idx - 56) + buf (idx - 57)

/-- Embedding of one element of the SZ (Lorenzo) branch of the sample
quantizer: in mean mode an element within prec of the mean is coded with the
reserved symbol 1 and the mean is written back; otherwise the Lorenzo
prediction is quantized with the tightened capacity, the reconstruction is
written back into the buffer, and on escape the raw value is appended to the
unpredictable list. -/
def szBlockStep (prec mean : ℚ) (useMean : Bool) (capSZ radius : ℤ)
    (s : SQState) (c : ℕ × ℕ × ℕ) : SQState :=
  let idx := cellIdx c
  let cur := s.buf idx
  if useMean = true ∧ fabs (cur - mean) ≤ prec then
    { s with buf := updateNat s.buf idx mean, types := s.types ++ [1],
             origs := s.origs ++ [cur], recons := s.recons ++ [mean] }
  else
    let p3 := lorenzoPred s.buf idx
    let r := quantizeStep prec capSZ radius p3 cur
    { buf := updateNat s.buf idx r.2, types := s.types ++ [r.1],
      origs := s.origs ++ [cur], recons := s.recons ++ [r.2],
      unpred := if r.1 = 0 then s.unpred ++ [cur] else s.unpred }

/-- Embedding of one element of the regression branch of the sample
quantizer: the prediction is the quantized affine model at the local
coordinates; the source does not write the reconstruction back into the
staging buffer on this path. -/
def regBlockStep (prec : ℚ) (cap radius : ℤ) (a b c d : ℚ)
    (s : SQState) (cell : ℕ × ℕ × ℕ) : SQState :=
  let cur := s.buf (cellIdx cell)
  let pred := a * cell.1 + b * cell.2.1 + c * cell.2.2 + d
  let r := quantizeStep prec cap radius pred cur
  { s with types := s.types ++ [r.1], origs := s.origs ++ [cur],
           recons := s.recons ++ [r.2],
           unpred := if r.1 = 0 then s.unpred ++ [cur] else s.unpred }

/-- Initial sample-quantizer state over a staged buffer. -/
def initSQ (buf : ℕ → ℚ) : SQState := ⟨buf, [], [], [], []⟩

/-- The SZ-branch pass over one block; the source tightens the capacity to
intvCapacity - 2 on this path, reserving codes 0 and 1. -/
def szQuantizeBlock (prec mean : ℚ) (useMean : Bool) (intvCap radius : ℤ)
    (buf : ℕ → ℚ) : SQState :=
  blockCells.foldl (szBlockStep prec mean useMean (intvCap - 2) radius) (initSQ buf)

/-- The regression-branch pass over one block. -/
def regQuantizeBlock (prec : ℚ) (intvCap radius : ℤ) (a b c d : ℚ)
    (buf : ℕ → ℚ) : SQState :=
  blockCells.foldl (regBlockStep prec intvCap radius a b c d) (initSQ buf)

/-- Embedding of the closed-form least-squares fit of the source: one nested
pass accumulating fx, fy, fz, f with the per-row partial sums sum_y and
sum_x, followed by the closed-form coefficient formulas for block_size 6.
The data function is the block staged without halo (stride 36/6/1). -/
def regressionFit (data : ℕ → ℚ) : ℚ × ℚ × ℚ × ℚ :=
  let st := (List.range 6).foldl (fun (s : ℚ × ℚ × ℚ × ℚ) i =>
      let r := (List.range 6).foldl (fun (t : ℚ × ℚ × ℚ) j =>
          let z := (List.range 6).foldl (fun (u : ℚ × ℚ) k =>
              let cur := data (i * 36 + j * 6 + k)
              (u.1 + cur, u.2 + cur * k)) ((0 : ℚ), t.2.2)
          (t.1 + z.1, t.2.1 + z.1 * j, z.2)) ((0 : ℚ), s.2.1, s.2.2.1)
      (s.1 + r.1 * i, r.2.1, r.2.2, s.2.2.2 + r.1)) ((0 : ℚ), 0, 0, 0)
  let coeff : ℚ := 1 / 216
  let a := (2 * st.1 / 5 - st.2.2.2) * 6 * coeff / 7
  let b := (2 * st.2.1 / 5 - st.2.2.2) * 6 * coeff / 7
  let c := (2 * st.2.2.1 / 5 - st.2.2.2) * 6 * coeff / 7
  let d := st.2.2.2 * coeff - (5 * a / 2 + 5 * b / 2 + 5 * c / 2)
  (a, b, c, d)

/-- The four selector samples taken at halo-buffer layer i (2 <= i <= 6),
with bmi = block_size - i + 1 = 7 - i: each entry pairs the buffer
coordinates of the sample with the multipliers the source feeds to the
regression model at that sample (i - 1 for an unmirrored coordinate and bmi
itself for a mirrored one, exactly as written). -/
def sampleLayer (i : ℕ) : List ((ℕ × ℕ × ℕ) × (ℕ × ℕ × ℕ)) :=
  let bmi := 7 - i
  [((i, i, i), (i - 1, i - 1, i - 1)),
   ((i, i, bmi), (i - 1, i - 1, bmi)),
   ((i, bmi, i), (i - 1, bmi, i - 1)),
   ((i, bmi, bmi), (i - 1, bmi, bmi))]

/-- One selector sample accumulation in non-mean mode: the Lorenzo error
plus the fixed noise term, and the regression error. -/
def selStep (buf : ℕ → ℚ) (a b c d noise : ℚ)
    (acc : ℚ × ℚ) (e : (ℕ × ℕ × ℕ) × (ℕ × ℕ × ℕ)) : ℚ × ℚ :=
  let idx := e.1.1 * 49 + e.1.2.1 * 7 + e.1.2.2
  let cur := buf idx
  let predSz := lorenzoPred buf idx
  let predReg := a * e.2.1 + b * e.2.2.1 + c * e.2.2.2 + d
  (acc.1 + fabs (predSz - cur) + noise, acc.2 + fabs (predReg - cur))

/-- One selector sample accumulation in mean mode: the Lorenzo-side cost is
the better of the prediction error plus noise and the distance to the mean. -/
def selStepMean (buf : ℕ → ℚ) (a b c d noise mean : ℚ)
    (acc : ℚ × ℚ) (e : (ℕ × ℕ × ℕ) × (ℕ × ℕ × ℕ)) : ℚ × ℚ :=
  let idx := e.1.1 * 49 + e.1.2.1 * 7 + e.1.2.2
  let cur := buf idx
  let predSz := lorenzoPred buf idx
  let predReg := a * e.2.1 + b * e.2.2.1 + c * e.2.2.2 + d
  (acc.1 + minQ (fabs (predSz - cur) + noise) (fabs (mean - cur)),
   acc.2 + fabs (predReg - cur))

/-- Embedding of the non-mean selector loop: layers i = 2..block_size, four
samples per layer, accumulating (err_sz, err_reg) from (0, 0). -/
def selectorErrs (buf : ℕ → ℚ) (a b c d noise : ℚ) : ℚ × ℚ :=
  (List.range' 2 5).foldl
    (fun acc i => (sampleLayer i).foldl (selStep buf a b c d noise) acc) (0, 0)

/-- Embedding of the mean-mode selector loop. -/
def selectorErrsMean (buf : ℕ → ℚ) (a b c d noise mean : ℚ) : ℚ × ℚ :=
  (List.range' 2 5).foldl
    (fun acc i => (sampleLayer i).foldl (selStepMean buf a b c d noise mean) acc) (0, 0)

/-- The selector samples flattened across the five layers. -/
def sampleEntries : List ((ℕ × ℕ × ℕ) × (ℕ × ℕ × ℕ)) :=
  (List.range' 2 5).flatMap sampleLayer

/-- The buffer coordinates the selector samples, in accumulation order. -/
def samplePositions : List (ℕ × ℕ × ℕ) := sampleEntries.map Prod.fst

/-- Per-slot precision of the coefficient quantizer: rel_param_err = 0.025
of realPrecision, divided by block_size for the three directional slots. -/
def coeffPrecision (p : ℚ) : Fin 4 → ℚ
  | 0 => 25 / 1000 * p / 6
  | 1 => 25 / 1000 * p / 6
  | 2 => 25 / 1000 * p / 6
  | 3 => 25 / 1000 * p

/-- State of one coefficient slot of the coefficient quantizer: the running
last reconstructed coefficient, plus observer lists of emitted symbols,
original coefficients, stored (written-back) values and raw escapes. -/
structure CQState where
  last : ℚ
  types : List ℤ
  origs : List ℚ
  stored : List ℚ
  unpred : List ℚ

/-- One step of the coefficient quantizer for one slot: the prediction is
the running last value; capacity 65536 and radius 32768 as in the source;
the written-back reg_params entry and the new running value are both the
reconstruction (or the raw coefficient on escape). -/
def coeffQuantStep (prec : ℚ) (s : CQState) (cur : ℚ) : CQState :=
  let r := quantizeStep prec 65536 32768 s.last cur
  { last := r.2, types := s.types ++ [r.1], origs := s.origs ++ [cur],
    stored := s.stored ++ [r.2],
    unpred := if r.1 = 0 then s.unpred ++ [cur] else s.unpred }

/-- One slot of the coefficient quantizer over the compacted per-block
coefficients, running state initialized to 0. -/
def coeffQuantSlot (prec : ℚ) (coeffs : List ℚ) : CQState :=
  coeffs.foldl (coeffQuantStep prec) ⟨0, [], [], [], []⟩

/-- Staging of a full (unclipped) block into the halo buffer: the block
content at offset (1,1,1), halo planes left at their zeroed initial state. -/
def bufOf (data : ℕ → ℚ) : ℕ → ℚ := fun idx =>
  let a := idx / 49
  let b := idx / 7 % 7
  let c := idx % 7
  if 1 ≤ a ∧ 1 ≤ b ∧ 1 ≤ c then data ((a - 1) * 36 + (b - 1) * 6 + (c - 1)) else 0

/-- The per-block indicator in non-mean mode, computed as the source does:
indicator = !(err_reg < err_sz), with noise = realPrecision * 1.22. -/
def pipelineIndicator (data : ℕ → ℚ) (p : ℚ) : Bool :=
  let f := regressionFit data
  let e := selectorErrs (bufOf data) f.1 f.2.1 f.2.2.1 f.2.2.2 (p * (122 / 100))
  !(decide (e.2 < e.1))

/-- Number of blocks that selected the regression predictor, for a volume
consisting of a single full block. -/
def pipelineRegCount (data : ℕ → ℚ) (p : ℚ) : ℕ :=
  if pipelineIndicator data p then 0 else 1

/-- End-to-end unpredictable-element count of one full block in non-mean
mode: fit, select, quantize coefficients when regression wins, then run the
selected branch of the sample quantizer and count the escapes. -/
def pipelineUnpred (data : ℕ → ℚ) (p : ℚ) (intvCap radius : ℤ) : ℕ :=
  if pipelineIndicator data p then
    (szQuantizeBlock p 0 false intvCap radius (bufOf data)).unpred.length
  else
    let f := regressionFit data
    let qa := (coeffQuantSlot (coeffPrecision p 0) [f.1]).last
    let qb := (coeffQuantSlot (coeffPrecision p 1) [f.2.1]).last
    let qc := (coeffQuantSlot (coeffPrecision p 2) [f.2.2.1]).last
    let qd := (coeffQuantSlot (coeffPrecision p 3) [f.2.2.2]).last
    (regQuantizeBlock p intvCap radius qa qb qc qd (bufOf data)).unpred.length

/-- Concrete 6x6x6 volume (flat index, z fastest) used as a test input: four
tall rectangle-corner spikes of magnitude 70000 on the (y, z) bump pattern
(1,2)+, (1,0)-, (4,2)-, (4,0)+ plus a small ridge of height 2 on the z = 2
plane.  The data is constant along x, so the Lorenzo predictor is exact away
from the x = 0 face, while the regression fit sees the spikes as residuals. -/
def cVol : ℕ → ℚ := fun n =>
  let y := n / 6 % 6
  let z := n % 6
  (if y = 1 ∧ z = 2 then (70000 : ℚ) else 0) - (if y = 1 ∧ z = 0 then 70000 else 0)
    - (if y = 4 ∧ z = 2 then 70000 else 0) + (if y = 4 ∧ z = 0 then 70000 else 0)
    + (if z = 2 then 2 else 0)

/-- Source z index held by the staging copy of the mean-mode passes after m
inner iterations for a block starting at base: the pointer advances only
while base + m + 1 < r. -/
def stageIdxMean (base r : ℕ) : ℕ → ℕ
  | 0 => base
  | m + 1 => stageIdxMean base r m + (if base + m + 1 < r then 1 else 0)

/-- Source z index held by the staging copy of the non-mean selector and
quantizer passes: these advance while base + m < r, one step longer. -/
def stageIdxNoMean (base r : ℕ) : ℕ → ℕ
  | 0 => base
  | m + 1 => stageIdxNoMean base r m + (if base + m < r then 1 else 0)

/-- Modulus of size_t arithmetic. -/
def szSizeMax : ℕ := 18446744073709551616

/-- Reduction of a natural to size_t range. -/
def sz64 (n : ℕ) : ℕ := n % szSizeMax

/-- Values computed and allocation sizes requested by the entry point before
any validation could happen (the source has none): block counts from
(r - 1)/block_size + 1 in size_t arithmetic, and the byte sizes of the first
four heap requests (result_type, result_unpredictable_data, reg_params,
pred_buffer). -/
structure PrologueOut where
  numX : ℕ
  numY : ℕ
  numZ : ℕ
  numBlocks : ℕ
  numElements : ℕ
  resultTypeBytes : ℕ
  unpredDataBytes : ℕ
  regParamsBytes : ℕ
  predBufferBytes : ℕ
  deriving DecidableEq

/-- Embedding of the straight-line prologue of sz_compress_float3d_opencl:
there is no precondition check of any kind, so the computation never takes
an error exit and always reaches the allocation requests. -/
def compressPrologue (r1 r2 r3 : ℕ) (realPrecision : ℚ) : Except Unit PrologueOut :=
  let _ := realPrecision
  let numX := sz64 (r1 + szSizeMax - 1) / 6 + 1
  let numY := sz64 (r2 + szSizeMax - 1) / 6 + 1
  let numZ := sz64 (r3 + szSizeMax - 1) / 6 + 1
  let numBlocks := sz64 (numX * numY * numZ)
  let numElements := sz64 (r1 * r2 * r3)
  .ok { numX := numX, numY := numY, numZ := numZ,
        numBlocks := numBlocks, numElements := numElements,
        resultTypeBytes := sz64 (numBlocks * 216 * 4),
        unpredDataBytes := sz64 (216 * 4 * numBlocks),
        regParamsBytes := sz64 (numBlocks * 4 * 4),
        predBufferBytes := 7 * 7 * 7 * 4 }

/-- Observer: whether the call was rejected with a failure. -/
def prologueRejected (x : Except Unit PrologueOut) : Bool :=
  match x with
  | .error _ => true
  | .ok _ => false

/-- Tags of the chunks the serializer writes, in the order of the write
pass; the coeffGap tag stands for the bytes between the end of the
size-typed coefficient stream length field (SZ_SIZE_TYPE bytes written) and
the encoded bytes placed at offset sizeof(size_t). -/
inductive Tag
  | header | numElF | blockSizeF | precF | intvF
  | treeSzF | nodeCtF | treeD
  | meanFlagF | meanF | indicatorD
  | coeffPrecF | coeffRadF | coeffTreeSzF | coeffNodeCtF | coeffTreeD
  | coeffLenF | coeffGap | coeffEncD | coeffUnpCtF | coeffUnpD
  | totalUnpF | cbwLenF | cbwD | unpD | ctypeLenF | ctypeD | ttaD
  deriving DecidableEq

/-- One serializer chunk: its tag, the bytes the write cursor advances for
it, and, for a length field, the value it declares. -/
structure Chunk where
  tag : Tag
  size : ℕ
  declared : Option ℕ
  deriving DecidableEq

/-- Whether a tag belongs to one of the four coefficient-slot sections. -/
def isCoeffTag : Tag → Bool
  | .coeffPrecF | .coeffRadF | .coeffTreeSzF | .coeffNodeCtF | .coeffTreeD
  | .coeffLenF | .coeffGap | .coeffEncD | .coeffUnpCtF | .coeffUnpD => true
  | _ => false

/-- Byte counts of the variable parts of one coefficient slot section:
serialized tree bytes, encoded stream bytes, and unpredictable count. -/
structure CoeffSec where
  tree : ℕ
  enc : ℕ
  cu : ℕ
  deriving DecidableEq

/-- The chunks of one coefficient slot section, in write order: precision
(8), interval radius (4), tree byte size (4, declaring the tree bytes), node
count (4), tree bytes, stream length (st bytes written by sizeToBytes, 8 - st
left-over gap because the cursor advances by sizeof(size_t)), encoded bytes,
unpredictable count (4, declaring the count), raw floats (4 each). -/
def coeffChunks (st : ℕ) (cs : CoeffSec) : List Chunk :=
  [⟨.coeffPrecF, 8, none⟩, ⟨.coeffRadF, 4, none⟩,
   ⟨.coeffTreeSzF, 4, some cs.tree⟩, ⟨.coeffNodeCtF, 4, none⟩,
   ⟨.coeffTreeD, cs.tree, none⟩,
   ⟨.coeffLenF, st, some cs.enc⟩, ⟨.coeffGap, 8 - st, none⟩,
   ⟨.coeffEncD, cs.enc, none⟩,
   ⟨.coeffUnpCtF, 4, some cs.cu⟩, ⟨.coeffUnpD, 4 * cs.cu, none⟩]

/-- Parameters of one serializer run: meta header bytes, configured
SZ_SIZE_TYPE, main tree bytes, indicator bitmap bytes, number of blocks that
chose regression, the four coefficient sections, total unpredictable count,
and the byte counts of the two compressed auxiliary arrays and of the
concatenated per-block encoded symbol chunks. -/
structure SerParams where
  meta : ℕ
  st : ℕ
  tree : ℕ
  indsz : ℕ
  regCount : ℕ
  coeffA : CoeffSec
  coeffB : CoeffSec
  coeffC : CoeffSec
  coeffD : CoeffSec
  unp : ℕ
  cbw : ℕ
  ctype : ℕ
  tta : ℕ

/-- Embedding of the sequential write pass of the serializer: the chunk
list in the order the cursor advances, with the coefficient sections
present exactly when reg_count > 0. -/
def serializerChunks (P : SerParams) : List Chunk :=
  [⟨.header, P.meta, none⟩, ⟨.numElF, P.st, none⟩, ⟨.blockSizeF, 4, none⟩,
   ⟨.precF, 8, none⟩, ⟨.intvF, 4, none⟩,
   ⟨.treeSzF, 4, some P.tree⟩, ⟨.nodeCtF, 4, none⟩, ⟨.treeD, P.tree, none⟩,
   ⟨.meanFlagF, 1, none⟩, ⟨.meanF, 4, none⟩, ⟨.indicatorD, P.indsz, none⟩]
  ++ (if 0 < P.regCount then
        coeffChunks P.st P.coeffA ++ coeffChunks P.st P.coeffB ++
        coeffChunks P.st P.coeffC ++ coeffChunks P.st P.coeffD
      else [])
  ++ [⟨.totalUnpF, 8, none⟩, ⟨.cbwLenF, 8, some P.cbw⟩, ⟨.cbwD, P.cbw, none⟩,
      ⟨.unpD, 4 * P.unp, none⟩, ⟨.ctypeLenF, 8, some P.ctype⟩,
      ⟨.ctypeD, P.ctype, none⟩, ⟨.ttaD, P.tta, none⟩]

/-- Total bytes the write pass emits. -/
def totalWritten (P : SerParams) : ℕ := ((serializerChunks P).map Chunk.size).sum

/-- Byte offset at which chunk n starts. -/
def chunkOffset (cs : List Chunk) (n : ℕ) : ℕ := ((cs.take n).map Chunk.size).sum

/-- A declared-length field at index i whose section at index j starts w
bytes after the start of the field and has exactly the declared size v. -/
def lenFieldPair (cs : List Chunk) (i j w v : ℕ) : Prop :=
  ((cs.get? i).bind Chunk.declared = some v) ∧
  ((cs.get? j).map Chunk.size = some v) ∧
  chunkOffset cs j = chunkOffset cs i + w

/-- Tag sequence of a serialized container. -/
def containerTags (P : SerParams) : List Tag := (serializerChunks P).map Chunk.tag

/-- Embedding of the calloc size of the output buffer: meta_data_offset +
SZ_SIZE_TYPE + sizeof(double) + 2 * sizeof(int) + treeByteSize + two
unsigned-short arrays and one float array of num_blocks entries +
total_unpred floats + num_elements ints. -/
def allocSize (meta st tree nb unp ne : ℕ) : ℕ :=
  meta + st + 8 + 4 + 4 + tree + 2 * nb + 2 * nb + 4 * nb + 4 * unp + 4 * ne

/-- Number of blocks along one axis, (r - 1)/block_size + 1, for r >= 1. -/
def numAxisBlocks (r : ℕ) : ℕ := (r - 1) / 6 + 1

/-- Total number of blocks of an (r1, r2, r3) volume. -/
def numBlocks3 (r1 r2 r3 : ℕ) : ℕ :=
  numAxisBlocks r1 * numAxisBlocks r2 * numAxisBlocks r3

/-- Number of elements of an (r1, r2, r3) volume. -/
def numElements3 (r1 r2 r3 : ℕ) : ℕ := r1 * r2 * r3

/-- Embedding of the mean computation: one pass summing and counting the
elements strictly within realPrecision of dense_pos, then mean = sum/count
if the count is positive and 0 otherwise. -/
def computeMean (data : List ℚ) (densePos prec : ℚ) : ℚ :=
  let s := data.foldl
    (fun (acc : ℚ × ℕ) x =>
      if fabs (x - densePos) < prec then (acc.1 + x, acc.2 + 1) else acc)
    ((0 : ℚ), (0 : ℕ))
  if 0 < s.2 then s.1 / (s.2 : ℚ) else 0

/-- The per-element guarantee of an error-bounded quantization pass, over
the observer lists: symbols, originals and reconstructions are in step;
every element either escaped with symbol 0 and its reconstruction is the
raw original, or its symbol is nonzero and the reconstruction is within
prec of the original; and the unpredictable list is exactly the sequence of
originals at the escape positions, in traversal order. -/
def QuantInv (prec : ℚ) (types : List ℤ) (origs recons unpred : List ℚ) : Prop :=
  types.length = origs.length ∧ types.length = recons.length ∧
  (∀ i, i < types.length →
    (types.getD i 1 = 0 ∧ recons.getD i 0 = origs.getD i 0) ∨
    (types.getD i 1 ≠ 0 ∧ fabs (origs.getD i 0 - recons.getD i 0) ≤ prec)) ∧
  unpred = (types.zip origs).filterMap fun t => if t.1 = 0 then some t.2 else none

/-- The per-element guarantee over the full sample-quantizer state. -/
def SQInv (prec : ℚ) (s : SQState) : Prop :=
  QuantInv prec s.types s.origs s.recons s.unpred

/-- The per-element guarantee plus running-state tracking for one slot of
the coefficient quantizer. -/
def CQInv (prec : ℚ) (s : CQState) : Prop :=
  QuantInv prec s.types s.origs s.stored s.unpred ∧ s.last = s.stored.getLastD 0

/-- Concrete serializer parameters exercising the 4-byte size type. -/
def cexSerParams : SerParams :=
  { meta := 20, st := 4, tree := 5, indsz := 1, regCount := 1,
    coeffA := ⟨3, 2, 1⟩, coeffB := ⟨3, 2, 0⟩, coeffC := ⟨3, 2, 0⟩,
    coeffD := ⟨3, 2, 0⟩, unp := 0, cbw := 9, ctype := 9, tta := 11 }

/-- Serializer parameters for the container of the single-block volume cVol
at precision 1/10, where the selector chooses the Lorenzo predictor and
reg_count is 0; the external byte counts are irrelevant to the presence of
the coefficient sections. -/
def cVolSerParams : SerParams :=
  { meta := 20, st := 8, tree := 5, indsz := 1,
    regCount := pipelineRegCount cVol (1 / 10),
    coeffA := ⟨0, 0, 0⟩, coeffB := ⟨0, 0, 0⟩, coeffC := ⟨0, 0, 0⟩,
    coeffD := ⟨0, 0, 0⟩, unp := 16, cbw := 9, ctype := 9, tta := 11 }

/-- Container tag sequence when at least one block chose regression. -/
def fullTagSeq : List Tag :=
  [.header, .numElF, .blockSizeF, .precF, .intvF, .treeSzF, .nodeCtF, .treeD,
   .meanFlagF, .meanF, .indicatorD] ++
  ([.coeffPrecF, .coeffRadF, .coeffTreeSzF, .coeffNodeCtF, .coeffTreeD,
    .coeffLenF, .coeffGap, .coeffEncD, .coeffUnpCtF, .coeffUnpD] ++
   [.coeffPrecF, .coeffRadF, .coeffTreeSzF, .coeffNodeCtF, .coeffTreeD,
    .coeffLenF, .coeffGap, .coeffEncD, .coeffUnpCtF, .coeffUnpD] ++
   [.coeffPrecF, .coeffRadF, .coeffTreeSzF, .coeffNodeCtF, .coeffTreeD,
    .coeffLenF, .coeffGap, .coeffEncD, .coeffUnpCtF, .coeffUnpD] ++
   [.coeffPrecF, .coeffRadF, .coeffTreeSzF, .coeffNodeCtF, .coeffTreeD,
    .coeffLenF, .coeffGap, .coeffEncD, .coeffUnpCtF, .coeffUnpD]) ++
  [.totalUnpF, .cbwLenF, .cbwD, .unpD, .ctypeLenF, .ctypeD, .ttaD]

/-- Container tag sequence when no block chose regression. -/
def shortTagSeq : List Tag :=
  [.header, .numElF, .blockSizeF, .precF, .intvF, .treeSzF, .nodeCtF, .treeD,
   .meanFlagF, .meanF, .indicatorD] ++
  [.totalUnpF, .cbwLenF, .cbwD, .unpD, .ctypeLenF, .ctypeD, .ttaD]

end SZO

namespace SZO

theorem fabs_nonneg (q : ℚ) : 0 ≤ fabs q := by
  unfold fabs; split <;> linarith

theorem fabs_le_iff {x c : ℚ} : fabs x ≤ c ↔ -c ≤ x ∧ x ≤ c := by
  unfold fabs
  split <;> constructor
  · intro h; constructor <;> linarith
  · intro h; linarith [h.1]
  · intro h; constructor <;> linarith
  · intro h; exact h.2

theorem fabs_of_neg {x : ℚ} (h : x < 0) : fabs x = -x := if_pos h

theorem fabs_of_nonneg {x : ℚ} (h : ¬ x < 0) : fabs x = x := if_neg h

/-- In exact arithmetic the reconstruction of a non-escaped symbol is always
within prec of the original, so the post-quantization guard never fires. -/
theorem quantize_recon_close {prec : ℚ} (hp : 0 < prec) (pred cur : ℚ) :
    fabs (cur - (pred + 2 * ((cTrunc ((if cur - pred < 0 then
      -(fabs (cur - pred) / prec + 1) else fabs (cur - pred) / prec + 1) / 2) : ℚ)) * prec)) ≤ prec := by
  have hpne : prec ≠ 0 := ne_of_gt hp
  set D := cur - pred with hD
  set B := fabs D / prec with hB
  have hBnn : 0 ≤ B := div_nonneg (fabs_nonneg D) hp.le
  have hAe : fabs D = B * prec := (div_mul_cancel₀ (fabs D) hpne).symm
  by_cases hneg : D < 0
  · rw [if_pos hneg]
    have hA : fabs D = -D := fabs_of_neg hneg
    have hlt : -((B + 1) / 2) < 0 := by linarith
    have ht : cTrunc (-(B + 1) / 2) = -⌊(B + 1) / 2⌋ := by
      have he : -(B + 1) / 2 = -((B + 1) / 2) := by ring
      rw [he, cTrunc, if_neg (not_le.mpr hlt)]
      norm_num
    have h1 : ((⌊(B + 1) / 2⌋ : ℚ)) ≤ (B + 1) / 2 := Int.floor_le _
    have h2 : (B + 1) / 2 < (⌊(B + 1) / 2⌋ : ℚ) + 1 := Int.lt_floor_add_one _
    rw [ht]
    rw [fabs_le_iff]
    push_cast
    have hDe : D = -(B * prec) := by rw [← hAe, hA]; ring
    constructor
    · nlinarith [mul_nonneg (by linarith : (0:ℚ) ≤ B + 1 - 2 * (⌊(B + 1) / 2⌋ : ℚ)) hp.le]
    · nlinarith [mul_nonneg (by linarith : (0:ℚ) ≤ 2 * (⌊(B + 1) / 2⌋ : ℚ) - (B - 1)) hp.le]
  · rw [if_neg hneg]
    have hA : fabs D = D := fabs_of_nonneg hneg
    have hge : 0 ≤ (B + 1) / 2 := by linarith
    have ht : cTrunc ((B + 1) / 2) = ⌊(B + 1) / 2⌋ := if_pos hge
    have h1 : ((⌊(B + 1) / 2⌋ : ℚ)) ≤ (B + 1) / 2 := Int.floor_le _
    have h2 : (B + 1) / 2 < (⌊(B + 1) / 2⌋ : ℚ) + 1 := Int.lt_floor_add_one _
    rw [ht, fabs_le_iff]
    have hDe : D = B * prec := by rw [← hAe, hA]
    constructor
    · nlinarith [mul_nonneg (by linarith : (0:ℚ) ≤ 2 * (⌊(B + 1) / 2⌋ : ℚ) - (B - 1)) hp.le]
    · nlinarith [mul_nonneg (by linarith : (0:ℚ) ≤ B + 1 - 2 * (⌊(B + 1) / 2⌋ : ℚ)) hp.le]

theorem cTrunc_negHalf {B : ℚ} (h : 0 ≤ B) : cTrunc (-(B + 1) / 2) = -⌊(B + 1) / 2⌋ := by
  have hlt : -((B + 1) / 2) < 0 := by linarith
  have he : -(B + 1) / 2 = -((B + 1) / 2) := by ring
  rw [he, cTrunc, if_neg (not_le.mpr hlt)]
  norm_num

theorem cTrunc_posHalf {B : ℚ} (h : 0 ≤ B) : cTrunc ((B + 1) / 2) = ⌊(B + 1) / 2⌋ := by
  have hge : 0 ≤ (B + 1) / 2 := by linarith
  exact if_pos hge

/-- Every quantizer step either escapes with symbol 0 and the raw value, or
emits a nonzero symbol whose reconstruction is within prec. -/
theorem quantizeStep_dichotomy {prec : ℚ} {cap radius : ℤ} (hp : 0 < prec)
    (hr : 0 < radius) (hcap : cap ≤ 2 * radius) (pred cur : ℚ) :
    ((quantizeStep prec cap radius pred cur).1 = 0 ∧
      (quantizeStep prec cap radius pred cur).2 = cur) ∨
    ((quantizeStep prec cap radius pred cur).1 ≠ 0 ∧
      fabs (cur - (quantizeStep prec cap radius pred cur).2) ≤ prec) := by
  have hBnn : 0 ≤ fabs (cur - pred) / prec := div_nonneg (fabs_nonneg _) hp.le
  simp only [quantizeStep]
  split_ifs with h1 h2 h3 h4
  · exact Or.inl ⟨rfl, rfl⟩
  · refine Or.inr ⟨?_, le_of_not_lt h3⟩
    show cTrunc (-(fabs (cur - pred) / prec + 1) / 2) + radius ≠ 0
    rw [cTrunc_negHalf hBnn]
    have hflt : (⌊(fabs (cur - pred) / prec + 1) / 2⌋ : ℤ) < radius := by
      apply Int.floor_lt.mpr
      have hcast : ((cap : ℚ)) ≤ ((2 * radius : ℤ) : ℚ) := by exact_mod_cast hcap
      push_cast at hcast ⊢
      linarith
    omega
  · exact Or.inl ⟨rfl, rfl⟩
  · refine Or.inr ⟨?_, le_of_not_lt h4⟩
    show cTrunc ((fabs (cur - pred) / prec + 1) / 2) + radius ≠ 0
    rw [cTrunc_posHalf hBnn]
    have hfnn : (0 : ℤ) ≤ ⌊(fabs (cur - pred) / prec + 1) / 2⌋ := by
      apply Int.floor_nonneg.mpr
      linarith
    omega
  · exact Or.inl ⟨rfl, rfl⟩

/-- A step escapes exactly when the interval count reaches the capacity: in
exact arithmetic the secondary guard never fires, and with a positive radius
and a capacity of at most twice the radius a non-escaped symbol is nonzero. -/
theorem quantizeStep_escape_iff {prec : ℚ} {cap radius : ℤ} (hp : 0 < prec)
    (hr : 0 < radius) (hcap : cap ≤ 2 * radius) (pred cur : ℚ) :
    (quantizeStep prec cap radius pred cur).1 = 0 ↔
      (cap : ℚ) ≤ fabs (cur - pred) / prec + 1 := by
  have hBnn : 0 ≤ fabs (cur - pred) / prec := div_nonneg (fabs_nonneg _) hp.le
  simp only [quantizeStep]
  split_ifs with h1 h2 h3 h4
  · exfalso
    have hclose := quantize_recon_close hp pred cur
    rw [if_pos h2] at hclose
    have hc2 : ((cTrunc (-(fabs (cur - pred) / prec + 1) / 2) + radius : ℤ) : ℚ) - (radius : ℚ)
        = ((cTrunc (-(fabs (cur - pred) / prec + 1) / 2) : ℤ) : ℚ) := by push_cast; ring
    rw [hc2] at h3
    exact absurd hclose (not_le.mpr h3)
  · apply iff_of_false ?_ (not_le.mpr h1)
    show cTrunc (-(fabs (cur - pred) / prec + 1) / 2) + radius ≠ 0
    rw [cTrunc_negHalf hBnn]
    have hflt : (⌊(fabs (cur - pred) / prec + 1) / 2⌋ : ℤ) < radius := by
      apply Int.floor_lt.mpr
      have hcast : ((cap : ℚ)) ≤ ((2 * radius : ℤ) : ℚ) := by exact_mod_cast hcap
      push_cast at hcast ⊢
      linarith
    omega
  · exfalso
    have hclose := quantize_recon_close hp pred cur
    rw [if_neg h2] at hclose
    have hc2 : ((cTrunc ((fabs (cur - pred) / prec + 1) / 2) + radius : ℤ) : ℚ) - (radius : ℚ)
        = ((cTrunc ((fabs (cur - pred) / prec + 1) / 2) : ℤ) : ℚ) := by push_cast; ring
    rw [hc2] at h4
    exact absurd hclose (not_le.mpr h4)
  · apply iff_of_false ?_ (not_le.mpr h1)
    show cTrunc ((fabs (cur - pred) / prec + 1) / 2) + radius ≠ 0
    rw [cTrunc_posHalf hBnn]
    have hfnn : (0 : ℤ) ≤ ⌊(fabs (cur - pred) / prec + 1) / 2⌋ := by
      apply Int.floor_nonneg.mpr
      linarith
    omega
  · exact iff_of_true rfl (le_of_not_lt h1)

/-- C9 amended: for a fixed element and a fixed prediction, escaping is
monotone in the precision: an element that escapes at a looser precision
also escapes at any tighter one.  The global escape count, in contrast, is
not monotone, because the predictor selection itself depends on the
precision (see the counterexample). -/
theorem escape_monotone {p1 p2 : ℚ} {cap radius : ℤ} (hp2 : 0 < p2)
    (hle : p2 ≤ p1) (hr : 0 < radius) (hcap : cap ≤ 2 * radius) (pred cur : ℚ)
    (h : (quantizeStep p1 cap radius pred cur).1 = 0) :
    (quantizeStep p2 cap radius pred cur).1 = 0 := by
  have hp1 : 0 < p1 := lt_of_lt_of_le hp2 hle
  rw [quantizeStep_escape_iff hp1 hr hcap] at h
  rw [quantizeStep_escape_iff hp2 hr hcap]
  have hdiv : fabs (cur - pred) / p1 ≤ fabs (cur - pred) / p2 :=
    div_le_div_of_nonneg_left (fabs_nonneg _) hp2 hle
  linarith

theorem getD_snoc_self {α : Type} (l : List α) (a d : α) :
    (l ++ [a]).getD l.length d = a := by
  rw [List.getD_append_right _ _ _ _ (le_refl _)]
  simp

theorem quantInv_nil (prec : ℚ) : QuantInv prec [] [] [] [] := by
  refine ⟨rfl, rfl, ?_, ?_⟩
  · intro i h; simp at h
  · simp

theorem quantInv_append {prec : ℚ} {types : List ℤ} {origs recons unpred : List ℚ}
    (h : QuantInv prec types origs recons unpred) {t : ℤ} {o r : ℚ}
    (hel : (t = 0 ∧ r = o) ∨ (t ≠ 0 ∧ fabs (o - r) ≤ prec)) :
    QuantInv prec (types ++ [t]) (origs ++ [o]) (recons ++ [r])
      (unpred ++ if t = 0 then [o] else []) := by
  obtain ⟨hlo, hlr, hpt, hup⟩ := h
  refine ⟨by simp [hlo], by simp [hlr], ?_, ?_⟩
  · intro i hi
    simp only [List.length_append, List.length_cons, List.length_nil] at hi
    by_cases hlt : i < types.length
    · rw [List.getD_append _ _ _ _ hlt, List.getD_append _ _ _ _ (by omega : i < origs.length),
        List.getD_append _ _ _ _ (by omega : i < recons.length)]
      exact hpt i hlt
    · have hieq : i = types.length := by omega
      subst hieq
      have e1 : (types ++ [t]).getD types.length 1 = t := getD_snoc_self types t 1
      have e2 : (origs ++ [o]).getD types.length 0 = o := by
        rw [hlo]; exact getD_snoc_self origs o 0
      have e3 : (recons ++ [r]).getD types.length 0 = r := by
        rw [hlr]; exact getD_snoc_self recons r 0
      rw [e1, e2, e3]
      rcases hel with ⟨h1, h2⟩ | ⟨h1, h2⟩
      · exact Or.inl ⟨h1, h2⟩
      · exact Or.inr ⟨h1, h2⟩
  · rw [List.zip_append hlo, List.filterMap_append, hup]
    congr 1
    by_cases ht : t = 0
    · simp [ht]
    · simp [ht]

theorem foldl_inv {α β : Type} (P : α → Prop) (f : α → β → α)
    (hf : ∀ s b, P s → P (f s b)) : ∀ (l : List β) (s : α), P s → P (l.foldl f s)
  | [], _, h => h
  | b :: l, s, h => foldl_inv P f hf l (f s b) (hf s b h)

theorem szBlockStep_inv {prec mean : ℚ} {useMean : Bool} {capSZ radius : ℤ}
    (hp : 0 < prec) (hr : 0 < radius) (hcap : capSZ ≤ 2 * radius)
    (s : SQState) (c : ℕ × ℕ × ℕ) (h : SQInv prec s) :
    SQInv prec (szBlockStep prec mean useMean capSZ radius s c) := by
  unfold SQInv at h ⊢
  have hd := quantizeStep_dichotomy hp hr hcap (lorenzoPred s.buf (cellIdx c)) (s.buf (cellIdx c))
  simp only [szBlockStep]
  split_ifs with hm h0
  · simpa using quantInv_append h (Or.inr ⟨one_ne_zero, hm.2⟩)
  · simpa [h0] using quantInv_append h hd
  · simpa [h0] using quantInv_append h hd

theorem regBlockStep_inv {prec : ℚ} {cap radius : ℤ} {a b c d : ℚ}
    (hp : 0 < prec) (hr : 0 < radius) (hcap : cap ≤ 2 * radius)
    (s : SQState) (cell : ℕ × ℕ × ℕ) (h : SQInv prec s) :
    SQInv prec (regBlockStep prec cap radius a b c d s cell) := by
  unfold SQInv at h ⊢
  have hd := quantizeStep_dichotomy hp hr hcap
    (a * cell.1 + b * cell.2.1 + c * cell.2.2 + d) (s.buf (cellIdx cell))
  simp only [regBlockStep]
  split_ifs with h0
  · simpa [h0] using quantInv_append h hd
  · simpa [h0] using quantInv_append h hd

theorem coeffQuantStep_inv {prec : ℚ} (hp : 0 < prec)
    (s : CQState) (cur : ℚ) (h : CQInv prec s) :
    CQInv prec (coeffQuantStep prec s cur) := by
  obtain ⟨hq, _⟩ := h
  have hd := quantizeStep_dichotomy hp (by decide : (0:ℤ) < 32768)
    (by decide : (65536:ℤ) ≤ 2 * 32768) s.last cur
  constructor
  · simp only [coeffQuantStep]
    split_ifs with h0
    · simpa [h0] using quantInv_append hq hd
    · simpa [h0] using quantInv_append hq hd
  · simp only [coeffQuantStep]
    exact (List.getLastD_concat _ _ _).symm

end SZO

namespace SZO

/-- C1: after the sample quantizer has processed a block, on both predictor
paths and in both modes, every element either carries escape symbol 0 with
its raw original appended to the unpredictable list (decoding exactly), or a
nonzero symbol whose reconstruction is within realPrecision of the original. -/
theorem c1_sample_quantizer_error_bound (prec mean : ℚ) (useMean : Bool)
    (cap radius : ℤ) (buf : ℕ → ℚ) (a b c d : ℚ)
    (hp : 0 < prec) (hr : 0 < radius) (hcap : cap ≤ 2 * radius) :
    SQInv prec (szQuantizeBlock prec mean useMean cap radius buf) ∧
    SQInv prec (regQuantizeBlock prec cap radius a b c d buf) := by
  constructor
  · exact foldl_inv (SQInv prec) _
      (fun s c h => szBlockStep_inv hp hr (by omega) s c h)
      blockCells (initSQ buf) (quantInv_nil prec)
  · exact foldl_inv (SQInv prec) _
      (fun s c h => regBlockStep_inv hp hr hcap s c h)
      blockCells (initSQ buf) (quantInv_nil prec)

theorem c1_witness :
    ((0:ℚ) < 1 ∧ (0:ℤ) < 2 ∧ (4:ℤ) ≤ 2 * 2) ∧
    (SQInv 1 (szQuantizeBlock 1 0 true 4 2 fun _ => 0) ∧
     SQInv 1 (regQuantizeBlock 1 4 2 0 0 0 0 fun _ => 0)) :=
  ⟨⟨by norm_num, by decide, by decide⟩,
   c1_sample_quantizer_error_bound 1 0 true 4 2 (fun _ => 0) 0 0 0 0
     (by norm_num) (by decide) (by decide)⟩

/-- C6: each coefficient slot is quantized with running state starting at 0;
every coefficient either escapes with symbol 0 and is stored raw, or gets a
nonzero symbol with reconstruction within the slot precision; the stored
entry is the reconstruction and equals the running state for the next block;
the slot precisions are 0.025 x realPrecision / block_size for the three
directional slots and 0.025 x realPrecision for the intercept. -/
theorem c6_coefficient_quantizer (rp : ℚ) (e : Fin 4) (coeffs : List ℚ)
    (hrp : 0 < rp) :
    CQInv (coeffPrecision rp e) (coeffQuantSlot (coeffPrecision rp e) coeffs) ∧
    coeffPrecision rp 0 = 25 / 1000 * rp / 6 ∧
    coeffPrecision rp 1 = 25 / 1000 * rp / 6 ∧
    coeffPrecision rp 2 = 25 / 1000 * rp / 6 ∧
    coeffPrecision rp 3 = 25 / 1000 * rp := by
  have hpos : 0 < coeffPrecision rp e := by
    fin_cases e <;> simp only [coeffPrecision] <;> positivity
  refine ⟨?_, rfl, rfl, rfl, rfl⟩
  exact foldl_inv (CQInv (coeffPrecision rp e)) _
    (fun s cur h => coeffQuantStep_inv hpos s cur h)
    coeffs _ ⟨quantInv_nil _, rfl⟩

theorem c6_witness :
    ((0:ℚ) < 2) ∧
    (CQInv (coeffPrecision 2 3) (coeffQuantSlot (coeffPrecision 2 3) [5]) ∧
     coeffPrecision 2 0 = 25 / 1000 * 2 / 6 ∧
     coeffPrecision 2 1 = 25 / 1000 * 2 / 6 ∧
     coeffPrecision 2 2 = 25 / 1000 * 2 / 6 ∧
     coeffPrecision 2 3 = 25 / 1000 * 2) :=
  ⟨by norm_num, c6_coefficient_quantizer 2 3 [5] (by norm_num)⟩

/-- C7 counterexample: the selector does not accumulate its errors over 8
sample positions. -/
theorem c7_counterexample : ¬ (samplePositions.length = 8) := by decide

/-- C7 amended: both selector loops accumulate over exactly the 20 sample
positions (i,i,i), (i,i,bmi), (i,bmi,i), (i,bmi,bmi) for i = 2..block_size
with bmi = block_size - i + 1, all distinct, before the indicator is
computed. -/
theorem c7_selector_positions (buf : ℕ → ℚ) (a b c d noise mean : ℚ) :
    selectorErrs buf a b c d noise
      = sampleEntries.foldl (selStep buf a b c d noise) (0, 0) ∧
    selectorErrsMean buf a b c d noise mean
      = sampleEntries.foldl (selStepMean buf a b c d noise mean) (0, 0) ∧
    samplePositions.length = 20 ∧
    samplePositions.Nodup ∧
    samplePositions =
      [(2,2,2),(2,2,5),(2,5,2),(2,5,5),
       (3,3,3),(3,3,4),(3,4,3),(3,4,4),
       (4,4,4),(4,4,3),(4,3,4),(4,3,3),
       (5,5,5),(5,5,2),(5,2,5),(5,2,2),
       (6,6,6),(6,6,1),(6,1,6),(6,1,1)] := by
  refine ⟨rfl, rfl, by decide, by decide, by decide⟩

/-- C2: evaluation of the two staging index recurrences at a boundary
block: r3 = 7, block base z index 6, first inner step.  The mean-mode
copies clamp at the last valid index 6; the non-mean copies advance to
source index 7 = r3, one past the valid range. -/
theorem c2_boundary_copy_reads_past_end :
    stageIdxNoMean 6 7 1 = 7 ∧ ¬ stageIdxNoMean 6 7 1 < 7 ∧
    stageIdxMean 6 7 1 = 6 := by decide

theorem stageIdxMean_eq_min (base r : ℕ) (h : base < r) :
    ∀ m, stageIdxMean base r m = min (base + m) (r - 1) := by
  intro m
  induction m with
  | zero => simp [stageIdxMean]; omega
  | succ n ih => simp only [stageIdxMean, ih]; split_ifs <;> omega

theorem stageIdxNoMean_eq_min (base r : ℕ) (h : base < r) :
    ∀ m, stageIdxNoMean base r m = min (base + m) r := by
  intro m
  induction m with
  | zero => simp [stageIdxNoMean]; omega
  | succ n ih => simp only [stageIdxNoMean, ih]; split_ifs <;> omega

/-- C3: for a 1 x 1 x 6 volume the write pass always emits more bytes than
the calloc allocates, whatever the external byte counts are: the 13 extra
fixed header bytes, the three 8-byte size_t length fields and (when present)
the coefficient sections are absent from the allocation formula, while its
slack of 8 bytes per block plus 4 bytes per element cannot absorb them. -/
theorem c3_alloc_overflow (meta st tree indsz unp cbw ctype tta rc : ℕ)
    (A B C D : CoeffSec) :
    allocSize meta st tree (numBlocks3 1 1 6) unp (numElements3 1 1 6) <
      totalWritten ⟨meta, st, tree, indsz, rc, A, B, C, D, unp, cbw, ctype, tta⟩ := by
  rcases rc with _ | n
  · simp [totalWritten, serializerChunks, allocSize, numBlocks3, numAxisBlocks,
      numElements3, coeffChunks]
    omega
  · simp [totalWritten, serializerChunks, allocSize, numBlocks3, numAxisBlocks,
      numElements3, coeffChunks]
    omega

/-- C4 amended: every declared byte-length field equals the byte count of
its section; the tree data follows its size field after the 4-byte node
count; each coefficient stream starts sizeof(size_t) = 8 bytes after its
size-typed length field, leaving a gap chunk of 8 - SZ_SIZE_TYPE bytes, and
the two compressed auxiliary arrays follow their 8-byte length fields
immediately. -/
theorem c4_size_fields (meta st tree indsz n unp cbw ctype tta : ℕ)
    (A B C D : CoeffSec) :
    (serializerChunks ⟨meta, st, tree, indsz, n + 1, A, B, C, D, unp, cbw, ctype, tta⟩).get? 5
        = some ⟨.treeSzF, 4, some tree⟩ ∧
    (serializerChunks ⟨meta, st, tree, indsz, n + 1, A, B, C, D, unp, cbw, ctype, tta⟩).get? 7
        = some ⟨.treeD, tree, none⟩ ∧
    (((serializerChunks ⟨meta, st, tree, indsz, n + 1, A, B, C, D, unp, cbw, ctype, tta⟩).drop 13).take 3
        = [⟨.coeffTreeSzF, 4, some A.tree⟩, ⟨.coeffNodeCtF, 4, none⟩, ⟨.coeffTreeD, A.tree, none⟩]) ∧
    (((serializerChunks ⟨meta, st, tree, indsz, n + 1, A, B, C, D, unp, cbw, ctype, tta⟩).drop 16).take 3
        = [⟨.coeffLenF, st, some A.enc⟩, ⟨.coeffGap, 8 - st, none⟩, ⟨.coeffEncD, A.enc, none⟩]) ∧
    (((serializerChunks ⟨meta, st, tree, indsz, n + 1, A, B, C, D, unp, cbw, ctype, tta⟩).drop 23).take 3
        = [⟨.coeffTreeSzF, 4, some B.tree⟩, ⟨.coeffNodeCtF, 4, none⟩, ⟨.coeffTreeD, B.tree, none⟩]) ∧
    (((serializerChunks ⟨meta, st, tree, indsz, n + 1, A, B, C, D, unp, cbw, ctype, tta⟩).drop 26).take 3
        = [⟨.coeffLenF, st, some B.enc⟩, ⟨.coeffGap, 8 - st, none⟩, ⟨.coeffEncD, B.enc, none⟩]) ∧
    (((serializerChunks ⟨meta, st, tree, indsz, n + 1, A, B, C, D, unp, cbw, ctype, tta⟩).drop 33).take 3
        = [⟨.coeffTreeSzF, 4, some C.tree⟩, ⟨.coeffNodeCtF, 4, none⟩, ⟨.coeffTreeD, C.tree, none⟩]) ∧
    (((serializerChunks ⟨meta, st, tree, indsz, n + 1, A, B, C, D, unp, cbw, ctype, tta⟩).drop 36).take 3
        = [⟨.coeffLenF, st, some C.enc⟩, ⟨.coeffGap, 8 - st, none⟩, ⟨.coeffEncD, C.enc, none⟩]) ∧
    (((serializerChunks ⟨meta, st, tree, indsz, n + 1, A, B, C, D, unp, cbw, ctype, tta⟩).drop 43).take 3
        = [⟨.coeffTreeSzF, 4, some D.tree⟩, ⟨.coeffNodeCtF, 4, none⟩, ⟨.coeffTreeD, D.tree, none⟩]) ∧
    (((serializerChunks ⟨meta, st, tree, indsz, n + 1, A, B, C, D, unp, cbw, ctype, tta⟩).drop 46).take 3
        = [⟨.coeffLenF, st, some D.enc⟩, ⟨.coeffGap, 8 - st, none⟩, ⟨.coeffEncD, D.enc, none⟩]) ∧
    (((serializerChunks ⟨meta, st, tree, indsz, n + 1, A, B, C, D, unp, cbw, ctype, tta⟩).drop 52).take 2
        = [⟨.cbwLenF, 8, some cbw⟩, ⟨.cbwD, cbw, none⟩]) ∧
    (((serializerChunks ⟨meta, st, tree, indsz, n + 1, A, B, C, D, unp, cbw, ctype, tta⟩).drop 55).take 2
        = [⟨.ctypeLenF, 8, some ctype⟩, ⟨.ctypeD, ctype, none⟩]) := by
  simp only [serializerChunks, if_pos (Nat.succ_pos n)]
  exact ⟨rfl, rfl, rfl, rfl, rfl, rfl, rfl, rfl, rfl, rfl, rfl, rfl⟩

/-- C4 counterexample: with the 4-byte size type, the coefficient encoded
bytes do not start SZ_SIZE_TYPE bytes after the length field: a 4-byte gap
separates them. -/
theorem c4_counterexample :
    cexSerParams.st = 4 ∧
    ¬ (chunkOffset (serializerChunks cexSerParams) 18
        = chunkOffset (serializerChunks cexSerParams) 16 + cexSerParams.st) := by
  constructor
  · rfl
  · decide

/-- C5 amended: the four coefficient-slot sections sit between the
indicator bitmap and the total unpredictable count exactly when at least one
block selected the regression predictor, and are absent when none did. -/
theorem c5_sections_iff_regression (meta st tree indsz unp cbw ctype tta : ℕ)
    (A B C D : CoeffSec) :
    (∀ n : ℕ, containerTags ⟨meta, st, tree, indsz, n + 1, A, B, C, D, unp, cbw, ctype, tta⟩
        = fullTagSeq) ∧
    containerTags ⟨meta, st, tree, indsz, 0, A, B, C, D, unp, cbw, ctype, tta⟩
        = shortTagSeq := by
  constructor
  · intro n
    simp only [containerTags, serializerChunks, if_pos (Nat.succ_pos n)]
    rfl
  · simp only [containerTags, serializerChunks, if_neg (lt_irrefl 0)]
    rfl

/-- C5 counterexample: for the volume cVol at precision 1/10 the selector
chooses the Lorenzo predictor, reg_count is 0, and the serialized container
holds no coefficient-slot section at all. -/
theorem c5_counterexample :
    pipelineRegCount cVol (1 / 10) = 0 ∧
    (serializerChunks cVolSerParams).filter (fun ch => isCoeffTag ch.tag) = [] := by
  constructor
  · decide
  · decide

/-- C8 counterexample: a call with r1 = 0 and realPrecision = -1 is not
rejected; the prologue runs straight to the allocation requests, with the
block count wrapped around by size_t arithmetic. -/
theorem c8_counterexample :
    prologueRejected (compressPrologue 0 1 1 (-1)) = false ∧
    compressPrologue 0 1 1 (-1) = .ok
      { numX := 3074457345618258603, numY := 1, numZ := 1,
        numBlocks := 3074457345618258603, numElements := 0,
        resultTypeBytes := 288, unpredDataBytes := 288,
        regParamsBytes := 12297829382473034416, predBufferBytes := 1372 } :=
  ⟨rfl, rfl⟩

/-- C8 amended: the entry point contains no precondition validation at all:
every call, including zero-extent and non-positive-precision ones, proceeds
to the heap allocation requests with the block counts computed in size_t
arithmetic. -/
theorem c8_no_validation (r1 r2 r3 : ℕ) (p : ℚ) :
    prologueRejected (compressPrologue r1 r2 r3 p) = false ∧
    (compressPrologue r1 r2 r3 p).toOption.map PrologueOut.numX
      = some (sz64 (r1 + szSizeMax - 1) / 6 + 1) :=
  ⟨rfl, rfl⟩

/-- C9 counterexample: tightening the precision from 1 to 1/10 on the volume
cVol flips the selector from regression (24 escapes) to Lorenzo (16
escapes), so the unpredictable count strictly decreases. -/
theorem c9_counterexample :
    (0:ℚ) < 1 / 10 ∧ (1/10 : ℚ) < 1 ∧
    pipelineUnpred cVol (1 / 10) 65536 32768 < pipelineUnpred cVol 1 65536 32768 := by
  refine ⟨by norm_num, by norm_num, ?_⟩
  decide

theorem c9_witness :
    ((0:ℚ) < 1/2 ∧ (1/2 : ℚ) ≤ 1 ∧ (0:ℤ) < 2 ∧ (4:ℤ) ≤ 2 * 2 ∧
      (quantizeStep 1 4 2 0 10).1 = 0) ∧
    (quantizeStep (1/2) 4 2 0 10).1 = 0 :=
  ⟨⟨by norm_num, by norm_num, by decide, by decide, by decide⟩,
   @escape_monotone 1 (1/2) 4 2 (by norm_num) (by norm_num) (by decide) (by decide)
     0 10 (by decide)⟩

theorem meanFold (densePos prec : ℚ) :
    ∀ (l : List ℚ) (a : ℚ) (n : ℕ),
      l.foldl (fun (acc : ℚ × ℕ) x =>
          if fabs (x - densePos) < prec then (acc.1 + x, acc.2 + 1) else acc) (a, n)
        = (a + (l.filter fun x => decide (fabs (x - densePos) < prec)).sum,
           n + (l.filter fun x => decide (fabs (x - densePos) < prec)).length)
  | [], a, n => by simp
  | x :: l, a, n => by
    simp only [List.foldl_cons]
    by_cases hx : fabs (x - densePos) < prec
    · rw [if_pos hx, meanFold densePos prec l (a + x) (n + 1)]
      have hfil : (x :: l).filter (fun y => decide (fabs (y - densePos) < prec))
          = x :: l.filter (fun y => decide (fabs (y - densePos) < prec)) := by
        simp [List.filter_cons, hx]
      rw [hfil]
      simp only [List.sum_cons, List.length_cons]
      rw [Prod.mk.injEq]
      exact ⟨by ring, by omega⟩
    · rw [if_neg hx, meanFold densePos prec l a n]
      have hfil : (x :: l).filter (fun y => decide (fabs (y - densePos) < prec))
          = l.filter (fun y => decide (fabs (y - densePos) < prec)) := by
        simp [List.filter_cons, hx]
      rw [hfil]

/-- C10: the stored mean is the arithmetic average of exactly the elements
strictly within realPrecision of dense_pos, or 0.0 when there are none; and
the mean-mode sample step codes any element within realPrecision of the mean
0.0 with reserved symbol 1, reconstructing it to 0.0 in the working buffer. -/
theorem c10_mean_and_reserved_symbol (data : List ℚ) (densePos prec : ℚ) :
    (data.filter (fun x => decide (fabs (x - densePos) < prec)) ≠ [] →
      computeMean data densePos prec
        = (data.filter (fun x => decide (fabs (x - densePos) < prec))).sum
          / ((data.filter (fun x => decide (fabs (x - densePos) < prec))).length : ℚ)) ∧
    (data.filter (fun x => decide (fabs (x - densePos) < prec)) = [] →
      computeMean data densePos prec = 0) ∧
    (∀ (capSZ radius : ℤ) (s : SQState) (c : ℕ × ℕ × ℕ),
      fabs (s.buf (cellIdx c) - 0) ≤ prec →
      (szBlockStep prec 0 true capSZ radius s c).types = s.types ++ [1] ∧
      (szBlockStep prec 0 true capSZ radius s c).recons = s.recons ++ [0] ∧
      (szBlockStep prec 0 true capSZ radius s c).buf (cellIdx c) = 0) := by
  refine ⟨?_, ?_, ?_⟩
  · intro hne
    have hlen : 0 < (data.filter (fun x => decide (fabs (x - densePos) < prec))).length :=
      List.length_pos.mpr hne
    simp only [computeMean, meanFold densePos prec data 0 0, Nat.zero_add, zero_add]
    rw [if_pos hlen]
  · intro he
    simp only [computeMean, meanFold densePos prec data 0 0, he]
    norm_num
  · intro capSZ radius s c hmean
    have hif : (szBlockStep prec 0 true capSZ radius s c)
        = { s with buf := updateNat s.buf (cellIdx c) 0, types := s.types ++ [1],
                   origs := s.origs ++ [s.buf (cellIdx c)], recons := s.recons ++ [0] } := by
      have hcond : (true = true ∧ fabs (s.buf (cellIdx c) - 0) ≤ prec) := ⟨rfl, hmean⟩
      unfold szBlockStep
      rw [if_pos hcond]
    rw [hif]
    simp [updateNat]

theorem c10_witness :
    (computeMean [(5:ℚ)] 0 1 = 0) ∧
    (computeMean [(2:ℚ)] 2 1
      = (([(2:ℚ)].filter (fun x => decide (fabs (x - 2) < 1))).sum
         / (([(2:ℚ)].filter (fun x => decide (fabs (x - 2) < 1))).length : ℚ))) ∧
    ((szBlockStep 1 0 true 4 2 (initSQ fun _ => 0) (0, 0, 0)).types = [] ++ [1]) :=
  ⟨(c10_mean_and_reserved_symbol [5] 0 1).2.1 (by decide),
   (c10_mean_and_reserved_symbol [2] 2 1).1 (by decide),
   ((c10_mean_and_reserved_symbol [] 0 1).2.2 4 2 (initSQ fun _ => 0) (0, 0, 0) (by decide)).1⟩

end SZO
